import Mathlib

/-!
Verification development for the perception-fusion core of the uavf_2024
repository: probabilistic target descriptors (`imaging_types.py`), the
bounded freshest-value buffer (`async_utils.py`), and models of the
geometry (Localizer) and track-manager components described in the design
document (whose source files `localizer.py` and `tracker.py` are not part
of the snapshot and are therefore modelled from the specification text).

All machine reals are embedded as rationals (`ℚ`): every arithmetic fact
proved here is exact, so it holds in particular within any floating-point
tolerance stated by the specification.
-/

set_option maxHeartbeats 1000000

/-! ## Category sets (imaging_types.py lines 11-42) -/

/-- Ordered color category list, from `COLOR_INDICES` in imaging_types.py. -/
def COLORS : List String :=
  ["red", "orange", "green", "blue", "purple", "white", "black", "brown"]

/-- Ordered shape category list, from `SHAPES` in imaging_types.py. -/
def SHAPES : List String :=
  ["circle", "semicircle", "quartercircle", "triangle", "rectangle",
   "pentagon", "star", "cross", "person"]

/-- Ordered alphanumeric category list, from the string `LETTERS` in
imaging_types.py. -/
def LETTERS : List Char :=
  "01ABCDEFGHIJ2KLMNOPQRST3UVWXYZ456789".toList

/-! ## Probabilistic and certain target descriptors -/

/-- Four class-probability vectors, mirroring the numpy arrays of
`ProbabilisticTargetDescriptor` in imaging_types.py. -/
structure ProbabilisticTargetDescriptor where
  shape_probs : List ℚ
  letter_probs : List ℚ
  shape_col_probs : List ℚ
  letter_col_probs : List ℚ
  deriving DecidableEq

/-- Elementwise addition of the four vectors
(`ProbabilisticTargetDescriptor.__add__`, imaging_types.py lines 89-95). -/
def ProbabilisticTargetDescriptor.add
    (a b : ProbabilisticTargetDescriptor) : ProbabilisticTargetDescriptor where
  shape_probs := List.zipWith (fun u v => u + v) a.shape_probs b.shape_probs
  letter_probs := List.zipWith (fun u v => u + v) a.letter_probs b.letter_probs
  shape_col_probs := List.zipWith (fun u v => u + v) a.shape_col_probs b.shape_col_probs
  letter_col_probs := List.zipWith (fun u v => u + v) a.letter_col_probs b.letter_col_probs

/-- Elementwise division of the four vectors by a scalar
(`ProbabilisticTargetDescriptor.__truediv__`, imaging_types.py lines 97-103). -/
def ProbabilisticTargetDescriptor.div
    (a : ProbabilisticTargetDescriptor) (scalar : ℚ) : ProbabilisticTargetDescriptor where
  shape_probs := a.shape_probs.map (fun u => u / scalar)
  letter_probs := a.letter_probs.map (fun u => u / scalar)
  shape_col_probs := a.shape_col_probs.map (fun u => u / scalar)
  letter_col_probs := a.letter_col_probs.map (fun u => u / scalar)

/-- Greatest entry of a list of rationals (`0` for the empty list): the value
that `np.argmax` locates. -/
def listMax : List ℚ → ℚ
  | [] => 0
  | [v] => v
  | v :: w :: rest => max v (listMax (w :: rest))

/-- Index of the first occurrence of the greatest entry, exactly the
`np.argmax` tie-breaking rule (first maximum wins). -/
def idxmax : List ℚ → Nat
  | [] => 0
  | [_] => 0
  | v :: w :: rest => if v < listMax (w :: rest) then idxmax (w :: rest) + 1 else 0

/-- Certain (single-category) descriptor, mirroring `CertainTargetDescriptor`
in imaging_types.py; `none` stands for Python `None` (missing label). -/
structure CertainTargetDescriptor where
  shape_col : Option String
  shape : Option String
  letter_col : Option String
  letter : Option Char
  deriving DecidableEq

/-- The assertions of `CertainTargetDescriptor.__init__` (imaging_types.py
lines 122-136): each non-`None` field belongs to its category list. -/
def CertainTargetDescriptor.Valid (d : CertainTargetDescriptor) : Prop :=
  (∀ s, d.shape = some s → s ∈ SHAPES) ∧
  (∀ c, d.shape_col = some c → c ∈ COLORS) ∧
  (∀ c, d.letter_col = some c → c ∈ COLORS) ∧
  (∀ c, d.letter = some c → c ∈ LETTERS)

/-- Collapse to the most likely category on each axis
(`ProbabilisticTargetDescriptor.collapse_to_certain`, imaging_types.py
lines 105-111): `np.argmax` per axis, then indexing into the category list. -/
def ProbabilisticTargetDescriptor.collapse_to_certain
    (d : ProbabilisticTargetDescriptor) : CertainTargetDescriptor where
  shape_col := some (COLORS.getD (idxmax d.shape_col_probs) (""))
  shape := some (SHAPES.getD (idxmax d.shape_probs) (""))
  letter_col := some (COLORS.getD (idxmax d.letter_col_probs) (""))
  letter := some (LETTERS.getD (idxmax d.letter_probs) ('0'))

/-- Zero vector of length `n` with a `1.0` written at index `i`: the
`np.zeros` / index-assignment pattern of `as_probabilistic`. -/
def oneHot (n i : Nat) : List ℚ := (List.replicate n 0).set i 1

/-- Uniform vector `np.ones(n) / n` used by `as_probabilistic` for `None`
fields. -/
def uniformVec (n : Nat) : List ℚ := List.replicate n ((1 : ℚ) / (n : ℚ))

/-- Translation of `CertainTargetDescriptor.as_probabilistic`
(imaging_types.py lines 163-195).  A raised Python `ValueError` is embedded
as `Except.error`.  Note the source computes
`shape_probs[SHAPES.index(self.shape)] = 1.0` unconditionally, so a `None`
shape reaches `SHAPES.index(None)` and raises even when
`force_through_none` is true; the `letter`, `shape_col` and `letter_col`
fields, by contrast, are given uniform vectors when `None`. -/
def CertainTargetDescriptor.as_probabilistic (d : CertainTargetDescriptor)
    (force_through_none : Bool) : Except String ProbabilisticTargetDescriptor :=
  if force_through_none = false ∧
      (d.shape = none ∨ d.letter = none ∨ d.shape_col = none ∨ d.letter_col = none) then
    Except.error ("ValueError: Cannot convert to probabilistic if any of the values are None")
  else
    match d.shape with
    | none => Except.error ("ValueError: None is not in list")
    | some s =>
      Except.ok
        { shape_probs := oneHot SHAPES.length (SHAPES.indexOf s)
          letter_probs :=
            match d.letter with
            | none => uniformVec LETTERS.length
            | some c => oneHot LETTERS.length (LETTERS.indexOf c)
          shape_col_probs :=
            match d.shape_col with
            | none => uniformVec COLORS.length
            | some c => oneHot COLORS.length (COLORS.indexOf c)
          letter_col_probs :=
            match d.letter_col with
            | none => uniformVec COLORS.length
            | some c => oneHot COLORS.length (COLORS.indexOf c) }

/-! ## AsyncBuffer (async_utils.py lines 30-82) -/

/-- State of `AsyncBuffer`: a fixed capacity together with the underlying
`deque(maxlen=capacity)`, modelled as a list ordered oldest first. -/
structure AsyncBuffer (α : Type) where
  capacity : Nat
  queue : List α
  deriving DecidableEq

/-- Constructor of `AsyncBuffer`: raises `ValueError` when `capacity < 1`,
otherwise starts with an empty queue (async_utils.py lines 31-36). -/
def AsyncBuffer.make (α : Type) (capacity : Int) : Except String (AsyncBuffer α) :=
  if capacity < 1 then
    Except.error ("ValueError: Buffer capacity cannot be less than 1")
  else
    Except.ok { capacity := capacity.toNat, queue := [] }

/-- Number of buffered items (`AsyncBuffer.count`). -/
def AsyncBuffer.count {α : Type} (b : AsyncBuffer α) : Nat := b.queue.length

/-- Append a datum; a full `deque(maxlen=capacity)` automatically discards
the item at the other (oldest) end (`AsyncBuffer.put`). -/
def AsyncBuffer.put {α : Type} (b : AsyncBuffer α) (datum : α) : AsyncBuffer α where
  capacity := b.capacity
  queue := (if b.queue.length = b.capacity then b.queue.drop 1 else b.queue) ++ [datum]

/-- Feed a whole sequence of puts, oldest first. -/
def AsyncBuffer.putAll {α : Type} (b : AsyncBuffer α) (data : List α) : AsyncBuffer α :=
  data.foldl AsyncBuffer.put b

/-- Read `self._queue[-(offset + 1)]` (`AsyncBuffer.get_fresh`): raises
`ValueError` on a negative offset, `IndexError` past the oldest item. -/
def AsyncBuffer.get_fresh {α : Type} (b : AsyncBuffer α) (offset : Int) : Except String α :=
  if offset < 0 then
    Except.error ("ValueError: Offset cannot be less than 0")
  else
    match b.queue.reverse.get? offset.toNat with
    | some v => Except.ok v
    | none => Except.error ("IndexError")

/-- All items, freshest first (`AsyncBuffer.get_all`). -/
def AsyncBuffer.get_all {α : Type} (b : AsyncBuffer α) : List α := b.queue.reverse

/-! ## Geometry (Localizer)

Modelled from the spec: the source file `localizer.py` is imported by
`uavf_2024/imaging/__init__.py` but is absent from the repository snapshot,
so the Geometry component is embedded from §4.1 of the design document:
a pinhole camera (focal length, principal point at the image center) with
an extrinsic world-from-camera rotation, projecting world points to pixels
and unprojecting pixels by intersecting the viewing ray with the ground
support plane at a known reference altitude. -/

/-- Modelled from the spec: a 3D world/camera vector over exact rationals. -/
structure Vec3 where
  x : ℚ
  y : ℚ
  z : ℚ
  deriving DecidableEq

/-- Componentwise vector sum. -/
def Vec3.add (a b : Vec3) : Vec3 := ⟨a.x + b.x, a.y + b.y, a.z + b.z⟩

/-- Componentwise vector difference. -/
def Vec3.sub (a b : Vec3) : Vec3 := ⟨a.x - b.x, a.y - b.y, a.z - b.z⟩

/-- Scalar multiple of a vector. -/
def Vec3.smul (s : ℚ) (v : Vec3) : Vec3 := ⟨s * v.x, s * v.y, s * v.z⟩

/-- Dot product. -/
def Vec3.dot (a b : Vec3) : ℚ := a.x * b.x + a.y * b.y + a.z * b.z

/-- Squared Euclidean distance (distances are compared squared so that the
whole development stays inside `ℚ`; comparing `dist² ≤ r²` is equivalent to
comparing `dist ≤ r` for `r ≥ 0`). -/
def Vec3.dist2 (a b : Vec3) : ℚ :=
  (a.x - b.x) ^ 2 + (a.y - b.y) ^ 2 + (a.z - b.z) ^ 2

/-- A 3×3 matrix given by rows. -/
structure Mat3 where
  r0 : Vec3
  r1 : Vec3
  r2 : Vec3
  deriving DecidableEq

/-- Matrix-vector product. -/
def Mat3.mulVec (m : Mat3) (v : Vec3) : Vec3 := ⟨m.r0.dot v, m.r1.dot v, m.r2.dot v⟩

/-- Modelled from the spec: a camera pose is a world position together with
the camera-to-world rotation and its inverse (the extrinsic transform and
the axis-convention mapping of §4.1 are composed into `rot`). -/
structure CameraPose where
  pos : Vec3
  rot : Mat3
  rotInv : Mat3

/-- A pose is valid when `rot` and `rotInv` are mutually inverse: the
rotation actually is an invertible extrinsic transform. -/
def CameraPose.Valid (p : CameraPose) : Prop :=
  (∀ v, p.rot.mulVec (p.rotInv.mulVec v) = v) ∧
  (∀ v, p.rotInv.mulVec (p.rot.mulVec v) = v)

/-- Modelled from the spec: the Localizer intrinsics — focal length in
pixels, image resolution, and the reference altitude of the assumed target
support plane (§4.1). -/
structure Localizer where
  focal_len : ℚ
  res_x : ℚ
  res_y : ℚ
  ground_alt : ℚ

/-- Modelled from the spec: `project_to_2d` (`Localizer.coords_to_2d`) —
express the world point in the camera frame, then apply the pinhole
intrinsics with the principal point at the image center. -/
def Localizer.coords_to_2d (L : Localizer) (p : Vec3) (pose : CameraPose) : ℚ × ℚ :=
  let d := pose.rotInv.mulVec (p.sub pose.pos)
  (L.focal_len * d.x / d.z + L.res_x / 2, L.focal_len * d.y / d.z + L.res_y / 2)

/-- Recoverable geometry failure reported by unprojection (§7). -/
inductive GeometryError where
  | NoIntersection
  deriving DecidableEq

/-- Modelled from the spec: world-frame direction of the ray cast from the
camera through a pixel (inverse intrinsics, then the camera-to-world
rotation). -/
def Localizer.pixelRay (L : Localizer) (px py : ℚ) (pose : CameraPose) : Vec3 :=
  pose.rot.mulVec
    ⟨(px - L.res_x / 2) / L.focal_len, (py - L.res_y / 2) / L.focal_len, 1⟩

/-- Modelled from the spec: parameter along the pixel ray at which it meets
the support plane `z = ground_alt`. -/
def Localizer.rayT (L : Localizer) (px py : ℚ) (pose : CameraPose) : ℚ :=
  (L.ground_alt - pose.pos.z) / (L.pixelRay px py pose).z

/-- Modelled from the spec: `unproject_to_3d` (`Localizer.prediction_to_coords`)
— cast a ray through the pixel and intersect it with the support plane;
report `GeometryError.NoIntersection` as part of the per-call result when
the ray is parallel to the plane (`z` component zero) or diverges from it
(the intersection parameter is not strictly in front of the camera). -/
def Localizer.prediction_to_coords (L : Localizer) (px py : ℚ) (pose : CameraPose) :
    Except GeometryError Vec3 :=
  if (L.pixelRay px py pose).z = 0 ∨ L.rayT px py pose ≤ 0 then
    Except.error GeometryError.NoIntersection
  else
    Except.ok (pose.pos.add (Vec3.smul (L.rayT px py pose) (L.pixelRay px py pose)))

/-! ## Track Manager

Modelled from the spec: the source file `tracker.py` (class `TargetTracker`)
is imported by `uavf_2024/imaging/__init__.py` but is absent from the
repository snapshot, so the Track Manager is embedded from §4.4 and §4.2 of
the design document: greedy nearest-neighbor association with a configured
gating distance, first-created track winning ties, the static-fusion
estimator keeping the running mean of contributing measurement positions
and the running sum of their descriptors. -/

/-- Modelled from the spec: a world-frame 3D measurement handed to the Track
Manager (`Measurement3D` of §3): position, probabilistic descriptor and a
source identifier. -/
structure Measurement where
  position : Vec3
  descriptor : ProbabilisticTargetDescriptor
  mid : Nat
  deriving DecidableEq

/-- Modelled from the spec: a track is the ordered list of its contributing
measurements (§3 "ordered list of contributing measurement identifiers"). -/
structure Track where
  contributing : List Measurement
  deriving DecidableEq

/-- Position estimate of a static-fusion track: the equal-weight running
average of its contributing measurement positions (§4.2). -/
def Track.position (t : Track) : Vec3 :=
  Vec3.smul (1 / (t.contributing.length : ℚ))
    (t.contributing.foldl (fun acc m => acc.add m.position) ⟨0, 0, 0⟩)

/-- Fused descriptor of a track: the unnormalized running sum of the
contributing descriptors, normalization deferred to query time (§4.2). -/
def Track.fusedDescriptor (t : Track) : ProbabilisticTargetDescriptor :=
  match t.contributing with
  | [] => ⟨[], [], [], []⟩
  | m :: rest => rest.foldl (fun acc mm => acc.add mm.descriptor) m.descriptor

/-- Least entry of a list of rationals (`0` for the empty list). -/
def listMin : List ℚ → ℚ
  | [] => 0
  | [v] => v
  | v :: w :: rest => min v (listMin (w :: rest))

/-- Index of the first occurrence of the least entry (ties broken towards
the earliest index, i.e. stable track-creation order). -/
def idxmin : List ℚ → Nat
  | [] => 0
  | [_] => 0
  | v :: w :: rest => if listMin (w :: rest) < v then idxmin (w :: rest) + 1 else 0

/-- Replace the element at an index (identity when the index is out of
range). -/
def modifyIdx {α : Type} (f : α → α) : Nat → List α → List α
  | _, [] => []
  | 0, v :: rest => f v :: rest
  | n + 1, v :: rest => v :: modifyIdx f n rest

/-- Modelled from the spec: the Track Manager owns the gating distance and
the list of live tracks in creation order (§4.4). -/
structure TargetTracker where
  gate : ℚ
  tracks : List Track
  deriving DecidableEq

/-- Squared distances from a measurement to every live track's current
position estimate. -/
def TargetTracker.dists (tr : TargetTracker) (m : Measurement) : List ℚ :=
  tr.tracks.map (fun t => Vec3.dist2 t.position m.position)

/-- Modelled from the spec: association of one measurement (§4.4) — find the
closest live track (squared distance, first track winning ties); if it is
within the gating distance the measurement joins that track, otherwise it
seeds a new track appended in creation order. -/
def TargetTracker.update1 (tr : TargetTracker) (m : Measurement) : TargetTracker :=
  if tr.tracks.isEmpty then
    { gate := tr.gate, tracks := [⟨[m]⟩] }
  else if listMin (tr.dists m) ≤ tr.gate ^ 2 then
    { gate := tr.gate,
      tracks := modifyIdx (fun t => ⟨t.contributing ++ [m]⟩) (idxmin (tr.dists m)) tr.tracks }
  else
    { gate := tr.gate, tracks := tr.tracks ++ [⟨[m]⟩] }

/-- Modelled from the spec: `update` associates each measurement of the batch
independently, in order (§4.4). -/
def TargetTracker.update (tr : TargetTracker) (ms : List Measurement) : TargetTracker :=
  ms.foldl TargetTracker.update1 tr

/-- A whole run: an ordered sequence of measurement batches fed to `update`,
starting from an empty manager with the given gating distance. -/
def TargetTracker.run (gate : ℚ) (batches : List (List Measurement)) : TargetTracker :=
  batches.foldl TargetTracker.update { gate := gate, tracks := [] }

/-! ## Helper lemmas on argmax, one-hot and uniform vectors -/

theorem listMax_map (f : ℚ → ℚ) (hf : Monotone f) :
    ∀ l : List ℚ, l ≠ [] → listMax (l.map f) = f (listMax l) := by
  intro l
  induction l with
  | nil => intro h; exact absurd rfl h
  | cons v rest ih =>
    intro _
    cases rest with
    | nil => simp [listMax]
    | cons w ws =>
      have h2 := ih (by simp)
      simp only [List.map_cons] at h2 ⊢
      simp only [listMax, h2, hf.map_max]

theorem idxmax_map (f : ℚ → ℚ) (hf : StrictMono f) :
    ∀ l : List ℚ, idxmax (l.map f) = idxmax l := by
  intro l
  induction l with
  | nil => rfl
  | cons v rest ih =>
    cases rest with
    | nil => rfl
    | cons w ws =>
      have hmax := listMax_map f hf.monotone (w :: ws) (by simp)
      simp only [List.map_cons] at hmax ih ⊢
      simp only [idxmax, hmax, hf.lt_iff_lt, ih]

theorem zipWith_add_const (c : ℚ) :
    ∀ l u : List ℚ, u.length = l.length → (∀ r ∈ u, r = c) →
      List.zipWith (fun a b => a + b) l u = l.map (fun a => a + c) := by
  intro l
  induction l with
  | nil => intro u _ _; simp
  | cons v rest ih =>
    intro u hlen hc
    cases u with
    | nil => simp at hlen
    | cons b bs =>
      have hb : b = c := hc b (by simp)
      simp only [List.zipWith_cons_cons, List.map_cons, hb]
      rw [ih bs (by simpa using hlen) (fun r hr => hc r (by simp [hr]))]

theorem oneHot_zero (n : Nat) : oneHot (n + 1) 0 = 1 :: List.replicate n 0 := by
  simp [oneHot, List.replicate_succ]

theorem oneHot_succ (n i : Nat) : oneHot (n + 1) (i + 1) = 0 :: oneHot n i := by
  simp [oneHot, List.replicate_succ]

theorem length_oneHot (n i : Nat) : (oneHot n i).length = n := by
  simp [oneHot]

theorem listMax_replicate_zero : ∀ m : Nat, listMax (List.replicate m 0) = 0 := by
  intro m
  induction m with
  | zero => rfl
  | succ k ih =>
    cases k with
    | zero => rfl
    | succ j =>
      simp only [List.replicate_succ] at ih ⊢
      simp only [listMax, ih, max_self]

theorem listMax_oneHot : ∀ n i : Nat, i < n → listMax (oneHot n i) = 1 := by
  intro n
  induction n with
  | zero => intro i h; omega
  | succ k ih =>
    intro i hi
    cases i with
    | zero =>
      rw [oneHot_zero]
      cases k with
      | zero => rfl
      | succ j =>
        have h0 : listMax (0 :: List.replicate j 0) = 0 := by
          have := listMax_replicate_zero (j + 1)
          simpa [List.replicate_succ] using this
        simp only [List.replicate_succ, listMax, h0]
        norm_num
    | succ i0 =>
      rw [oneHot_succ]
      have hlen : (oneHot k i0).length = k := length_oneHot k i0
      have hi0 : i0 < k := by omega
      cases hh : oneHot k i0 with
      | nil => rw [hh] at hlen; simp at hlen; omega
      | cons a as =>
        have := ih i0 hi0
        rw [hh] at this
        simp only [listMax, this]
        norm_num

theorem idxmax_oneHot : ∀ n i : Nat, i < n → idxmax (oneHot n i) = i := by
  intro n
  induction n with
  | zero => intro i h; omega
  | succ k ih =>
    intro i hi
    cases i with
    | zero =>
      rw [oneHot_zero]
      cases k with
      | zero => rfl
      | succ j =>
        simp only [List.replicate_succ, idxmax]
        have h0 : listMax (0 :: List.replicate j 0) = 0 := by
          have := listMax_replicate_zero (j + 1)
          simpa [List.replicate_succ] using this
        rw [h0]
        norm_num
    | succ i0 =>
      rw [oneHot_succ]
      have hlen : (oneHot k i0).length = k := length_oneHot k i0
      have hi0 : i0 < k := by omega
      have hmax := listMax_oneHot k i0 hi0
      have hidx := ih i0 hi0
      cases hh : oneHot k i0 with
      | nil => rw [hh] at hlen; simp at hlen; omega
      | cons a as =>
        rw [hh] at hmax hidx
        simp only [idxmax, hmax, hidx]
        norm_num

theorem sum_oneHot : ∀ n i : Nat, i < n → (oneHot n i).sum = 1 := by
  intro n
  induction n with
  | zero => intro i h; omega
  | succ k ih =>
    intro i hi
    cases i with
    | zero => simp [oneHot_zero]
    | succ i0 =>
      rw [oneHot_succ]
      have := ih i0 (by omega)
      simp [this]

theorem sum_uniformVec (n : Nat) (hn : n ≠ 0) : (uniformVec n).sum = 1 := by
  have hq : (n : ℚ) ≠ 0 := Nat.cast_ne_zero.mpr hn
  simp only [uniformVec, List.sum_replicate, nsmul_eq_mul]
  field_simp

theorem getD_indexOf {α : Type} [DecidableEq α] (l : List α) (a dflt : α) (h : a ∈ l) :
    l.getD (l.indexOf a) dflt = a := by
  rw [List.getD_eq_getElem l dflt (List.indexOf_lt_length.mpr h)]
  exact List.getElem_indexOf _

theorem zipWith_add_comm :
    ∀ a b : List ℚ, List.zipWith (fun u v => u + v) a b = List.zipWith (fun u v => u + v) b a := by
  intro a
  induction a with
  | nil => intro b; cases b <;> rfl
  | cons x xs ih =>
    intro b
    cases b with
    | nil => rfl
    | cons y ys => simp only [List.zipWith_cons_cons, ih, add_comm]

theorem zipWith_add_assoc :
    ∀ a b c : List ℚ,
      List.zipWith (fun u v => u + v) (List.zipWith (fun u v => u + v) a b) c =
        List.zipWith (fun u v => u + v) a (List.zipWith (fun u v => u + v) b c) := by
  intro a
  induction a with
  | nil => intro b c; rfl
  | cons x xs ih =>
    intro b c
    cases b with
    | nil => rfl
    | cons y ys =>
      cases c with
      | nil => rfl
      | cons z zs => simp only [List.zipWith_cons_cons, ih, add_assoc]

theorem ptd_add_comm (a b : ProbabilisticTargetDescriptor) : a.add b = b.add a := by
  cases a; cases b
  simp only [ProbabilisticTargetDescriptor.add, ProbabilisticTargetDescriptor.mk.injEq]
  exact ⟨zipWith_add_comm _ _, zipWith_add_comm _ _, zipWith_add_comm _ _, zipWith_add_comm _ _⟩

theorem ptd_add_assoc (a b c : ProbabilisticTargetDescriptor) :
    (a.add b).add c = a.add (b.add c) := by
  cases a; cases b; cases c
  simp only [ProbabilisticTargetDescriptor.add, ProbabilisticTargetDescriptor.mk.injEq]
  exact ⟨zipWith_add_assoc _ _ _, zipWith_add_assoc _ _ _, zipWith_add_assoc _ _ _,
    zipWith_add_assoc _ _ _⟩

/-! ## Claim theorems: descriptors -/

/-- C10: `ProbabilisticTargetDescriptor` addition (`__add__`) is commutative
and associative for descriptors with matching vector lengths on all four
axes, and consequently a running-sum fusion yields the same fused
descriptor for every permutation of the same contributing measurements. -/
theorem descriptor_add_comm_assoc_perm :
    (∀ a b : ProbabilisticTargetDescriptor,
        a.shape_probs.length = b.shape_probs.length →
        a.letter_probs.length = b.letter_probs.length →
        a.shape_col_probs.length = b.shape_col_probs.length →
        a.letter_col_probs.length = b.letter_col_probs.length →
        a.add b = b.add a) ∧
    (∀ a b c : ProbabilisticTargetDescriptor,
        a.shape_probs.length = b.shape_probs.length →
        a.letter_probs.length = b.letter_probs.length →
        a.shape_col_probs.length = b.shape_col_probs.length →
        a.letter_col_probs.length = b.letter_col_probs.length →
        b.shape_probs.length = c.shape_probs.length →
        b.letter_probs.length = c.letter_probs.length →
        b.shape_col_probs.length = c.shape_col_probs.length →
        b.letter_col_probs.length = c.letter_col_probs.length →
        (a.add b).add c = a.add (b.add c)) ∧
    (∀ (d : ProbabilisticTargetDescriptor) (l1 l2 : List ProbabilisticTargetDescriptor),
        l1.Perm l2 →
        l1.foldl ProbabilisticTargetDescriptor.add d =
          l2.foldl ProbabilisticTargetDescriptor.add d) := by
  refine ⟨fun a b _ _ _ _ => ptd_add_comm a b,
          fun a b c _ _ _ _ _ _ _ _ => ptd_add_assoc a b c, fun d l1 l2 hperm => ?_⟩
  haveI rc : RightCommutative ProbabilisticTargetDescriptor.add :=
    ⟨fun x a b => by rw [ptd_add_assoc, ptd_add_assoc, ptd_add_comm a b]⟩
  exact hperm.foldl_eq d

/-- Witness for C10 at concrete descriptors. -/
theorem descriptor_add_comm_assoc_perm_witness :
    ((⟨[1], [2], [3], [4]⟩ : ProbabilisticTargetDescriptor).add ⟨[5], [6], [7], [8]⟩ =
        (⟨[5], [6], [7], [8]⟩ : ProbabilisticTargetDescriptor).add ⟨[1], [2], [3], [4]⟩) ∧
    (([⟨[1], [2], [3], [4]⟩, ⟨[5], [6], [7], [8]⟩] :
          List ProbabilisticTargetDescriptor).foldl ProbabilisticTargetDescriptor.add
        ⟨[0], [0], [0], [0]⟩ =
      ([⟨[5], [6], [7], [8]⟩, ⟨[1], [2], [3], [4]⟩] :
          List ProbabilisticTargetDescriptor).foldl ProbabilisticTargetDescriptor.add
        ⟨[0], [0], [0], [0]⟩) :=
  ⟨descriptor_add_comm_assoc_perm.1 _ _ rfl rfl rfl rfl,
   descriptor_add_comm_assoc_perm.2.2 _ _ _ (List.Perm.swap _ _ _)⟩

/-- C4: fusing a uniform descriptor (constant vector on each axis) into a
running-sum descriptor via `__add__` and renormalizing by the measurement
count via `__truediv__` leaves `collapse_to_certain` unchanged. -/
theorem collapse_unchanged_by_uniform_fusion
    (d u : ProbabilisticTargetDescriptor) (k : ℚ) (hk : 0 < k)
    (hl1 : u.shape_probs.length = d.shape_probs.length)
    (hl2 : u.letter_probs.length = d.letter_probs.length)
    (hl3 : u.shape_col_probs.length = d.shape_col_probs.length)
    (hl4 : u.letter_col_probs.length = d.letter_col_probs.length)
    (hc1 : ∃ c, ∀ r ∈ u.shape_probs, r = c)
    (hc2 : ∃ c, ∀ r ∈ u.letter_probs, r = c)
    (hc3 : ∃ c, ∀ r ∈ u.shape_col_probs, r = c)
    (hc4 : ∃ c, ∀ r ∈ u.letter_col_probs, r = c) :
    ((d.add u).div k).collapse_to_certain = d.collapse_to_certain := by
  obtain ⟨c1, hc1⟩ := hc1
  obtain ⟨c2, hc2⟩ := hc2
  obtain ⟨c3, hc3⟩ := hc3
  obtain ⟨c4, hc4⟩ := hc4
  have hdiv : StrictMono (fun a : ℚ => a / k) := fun a b hab => by
    simpa [div_eq_mul_inv] using (mul_lt_mul_right (inv_pos.mpr hk)).mpr hab
  have hadd : ∀ c : ℚ, StrictMono (fun a : ℚ => a + c) :=
    fun c a b hab => add_lt_add_right hab c
  have key : ∀ (lv uv : List ℚ) (c : ℚ), uv.length = lv.length → (∀ r ∈ uv, r = c) →
      idxmax ((List.zipWith (fun x y => x + y) lv uv).map (fun a => a / k)) = idxmax lv := by
    intro lv uv c hlen hcv
    rw [zipWith_add_const c lv uv hlen hcv, idxmax_map _ hdiv, idxmax_map _ (hadd c)]
  have h1 := key d.shape_probs u.shape_probs c1 hl1 hc1
  have h2 := key d.letter_probs u.letter_probs c2 hl2 hc2
  have h3 := key d.shape_col_probs u.shape_col_probs c3 hl3 hc3
  have h4 := key d.letter_col_probs u.letter_col_probs c4 hl4 hc4
  simp only [ProbabilisticTargetDescriptor.collapse_to_certain,
    ProbabilisticTargetDescriptor.add, ProbabilisticTargetDescriptor.div, h1, h2, h3, h4]

/-- Witness for C4 at a concrete running sum, uniform input and count. -/
theorem collapse_unchanged_by_uniform_fusion_witness :
    (((⟨[1, 2], [3], [4], [5]⟩ : ProbabilisticTargetDescriptor).add
          ⟨[2, 2], [7], [7], [7]⟩).div 2).collapse_to_certain =
      (⟨[1, 2], [3], [4], [5]⟩ : ProbabilisticTargetDescriptor).collapse_to_certain :=
  collapse_unchanged_by_uniform_fusion ⟨[1, 2], [3], [4], [5]⟩ ⟨[2, 2], [7], [7], [7]⟩ 2
    (by norm_num) rfl rfl rfl rfl
    ⟨2, by intro r hr; simpa using hr⟩ ⟨7, by intro r hr; simpa using hr⟩
    ⟨7, by intro r hr; simpa using hr⟩ ⟨7, by intro r hr; simpa using hr⟩

/-- C5 (evaluation at the failing input): contrary to the claim and to the
docstring of `as_probabilistic`, a descriptor whose `shape` is `None`
raises `ValueError` even when `force_through_none` is `True`, because the
source indexes `SHAPES.index(self.shape)` unconditionally; the `None`
shape is not converted to a uniform distribution. -/
theorem as_probabilistic_raises_for_none_shape :
    (CertainTargetDescriptor.mk none none none none).as_probabilistic true =
      Except.error ("ValueError: None is not in list") := rfl

/-- C6: every `ProbabilisticTargetDescriptor` successfully returned by
`as_probabilistic` (for a descriptor satisfying the constructor assertions)
has all four probability vectors summing to 1. -/
theorem as_probabilistic_normalized
    (d : CertainTargetDescriptor) (force : Bool) (hv : d.Valid)
    (p : ProbabilisticTargetDescriptor)
    (h : d.as_probabilistic force = Except.ok p) :
    p.shape_probs.sum = 1 ∧ p.letter_probs.sum = 1 ∧
      p.shape_col_probs.sum = 1 ∧ p.letter_col_probs.sum = 1 := by
  rw [CertainTargetDescriptor.as_probabilistic] at h
  split at h
  · exact absurd h (by simp)
  · cases hs : d.shape with
    | none => rw [hs] at h; exact absurd h (by simp)
    | some s =>
      rw [hs] at h
      simp only [Except.ok.injEq] at h
      subst h
      have hsh : (oneHot SHAPES.length (SHAPES.indexOf s)).sum = 1 :=
        sum_oneHot _ _ (List.indexOf_lt_length.mpr (hv.1 s hs))
      refine ⟨hsh, ?_, ?_, ?_⟩
      · cases hl : d.letter with
        | none => simp only [hl]; exact sum_uniformVec _ (by decide)
        | some c =>
          simp only [hl]
          exact sum_oneHot _ _ (List.indexOf_lt_length.mpr (hv.2.2.2 c hl))
      · cases hl : d.shape_col with
        | none => simp only [hl]; exact sum_uniformVec _ (by decide)
        | some c =>
          simp only [hl]
          exact sum_oneHot _ _ (List.indexOf_lt_length.mpr (hv.2.1 c hl))
      · cases hl : d.letter_col with
        | none => simp only [hl]; exact sum_uniformVec _ (by decide)
        | some c =>
          simp only [hl]
          exact sum_oneHot _ _ (List.indexOf_lt_length.mpr (hv.2.2.1 c hl))

/-- Witness for C6 at a concrete fully-labelled descriptor. -/
theorem as_probabilistic_normalized_witness :
    (oneHot 9 0 : List ℚ).sum = 1 ∧ (oneHot 36 2 : List ℚ).sum = 1 ∧
      (oneHot 8 0 : List ℚ).sum = 1 ∧ (oneHot 8 3 : List ℚ).sum = 1 :=
  as_probabilistic_normalized
    ⟨some ("red"), some ("circle"), some ("blue"), some 'A'⟩ true
    (by refine ⟨?_, ?_, ?_, ?_⟩ <;> intro a ha <;> injection ha with hb <;> subst hb <;> decide)
    ⟨oneHot 9 0, oneHot 36 2, oneHot 8 0, oneHot 8 3⟩ rfl

/-- C9: collapsing the probabilistic form of a fully-labelled valid certain
descriptor returns the original descriptor field by field. -/
theorem collapse_as_probabilistic_roundtrip
    (sc sh lc : String) (lt : Char) (force : Bool)
    (hsc : sc ∈ COLORS) (hsh : sh ∈ SHAPES) (hlc : lc ∈ COLORS) (hlt : lt ∈ LETTERS) :
    Except.map ProbabilisticTargetDescriptor.collapse_to_certain
        ((CertainTargetDescriptor.mk (some sc) (some sh) (some lc)
            (some lt)).as_probabilistic force) =
      Except.ok (CertainTargetDescriptor.mk (some sc) (some sh) (some lc) (some lt)) := by
  rw [CertainTargetDescriptor.as_probabilistic]
  rw [if_neg (by simp)]
  simp only [Except.map, ProbabilisticTargetDescriptor.collapse_to_certain, Except.ok.injEq,
    CertainTargetDescriptor.mk.injEq]
  rw [idxmax_oneHot _ _ (List.indexOf_lt_length.mpr hsc),
    idxmax_oneHot _ _ (List.indexOf_lt_length.mpr hsh),
    idxmax_oneHot _ _ (List.indexOf_lt_length.mpr hlc),
    idxmax_oneHot _ _ (List.indexOf_lt_length.mpr hlt)]
  exact ⟨by rw [getD_indexOf _ _ _ hsc], by rw [getD_indexOf _ _ _ hsh],
    by rw [getD_indexOf _ _ _ hlc], by rw [getD_indexOf _ _ _ hlt]⟩

/-- Witness for C9 at a concrete fully-labelled descriptor. -/
theorem collapse_as_probabilistic_roundtrip_witness :
    Except.map ProbabilisticTargetDescriptor.collapse_to_certain
        ((CertainTargetDescriptor.mk (some ("red")) (some ("circle")) (some ("blue"))
            (some 'A')).as_probabilistic false) =
      Except.ok (CertainTargetDescriptor.mk (some ("red")) (some ("circle")) (some ("blue"))
        (some 'A')) :=
  collapse_as_probabilistic_roundtrip ("red") ("circle") ("blue") 'A' false
    (by simp [COLORS]) (by simp [SHAPES]) (by simp [COLORS]) (by decide)

/-! ## Claim theorems: AsyncBuffer -/

theorem asyncBuffer_put_capacity {α : Type} (b : AsyncBuffer α) (x : α) :
    (b.put x).capacity = b.capacity := rfl

theorem asyncBuffer_put_length_le {α : Type} (b : AsyncBuffer α) (x : α)
    (hcap : 1 ≤ b.capacity) (h : b.queue.length ≤ b.capacity) :
    (b.put x).queue.length ≤ b.capacity := by
  by_cases hq : b.queue.length = b.capacity
  · simp only [AsyncBuffer.put, if_pos hq, List.length_append, List.length_drop,
      List.length_cons, List.length_nil]
    omega
  · simp only [AsyncBuffer.put, if_neg hq, List.length_append, List.length_cons,
      List.length_nil]
    omega

theorem asyncBuffer_put_queue_eq {α : Type} (b : AsyncBuffer α) (x : α)
    (hcap : 1 ≤ b.capacity) (h : b.queue.length ≤ b.capacity) :
    (b.put x).queue = (b.queue ++ [x]).drop (b.queue.length + 1 - b.capacity) := by
  by_cases hq : b.queue.length = b.capacity
  · simp only [AsyncBuffer.put, if_pos hq]
    have h1 : b.queue.length + 1 - b.capacity = 1 := by omega
    rw [h1, List.drop_append_of_le_length (by omega)]
  · simp only [AsyncBuffer.put, if_neg hq]
    have h1 : b.queue.length + 1 - b.capacity = 0 := by omega
    rw [h1, List.drop_zero]

theorem asyncBuffer_putAll_capacity {α : Type} :
    ∀ (ms : List α) (b : AsyncBuffer α), (b.putAll ms).capacity = b.capacity := by
  intro ms
  induction ms with
  | nil => intro b; rfl
  | cons m rest ih => intro b; exact ih (b.put m)

theorem asyncBuffer_putAll_queue_eq {α : Type} :
    ∀ (ms : List α) (b : AsyncBuffer α), 1 ≤ b.capacity → b.queue.length ≤ b.capacity →
      (b.putAll ms).queue =
        (b.queue ++ ms).drop (b.queue.length + ms.length - b.capacity) := by
  intro ms
  induction ms with
  | nil =>
    intro b hc h
    show b.queue = _
    simp only [List.append_nil, List.length_nil, Nat.add_zero]
    have h1 : b.queue.length - b.capacity = 0 := by omega
    rw [h1, List.drop_zero]
  | cons m rest ih =>
    intro b hc h
    have hstep : b.putAll (m :: rest) = (b.put m).putAll rest := rfl
    have hcapp : (b.put m).capacity = b.capacity := rfl
    rw [hstep, ih (b.put m) hc (asyncBuffer_put_length_le b m hc h),
      asyncBuffer_put_queue_eq b m hc h, hcapp]
    have h2 : b.queue.length + 1 - b.capacity ≤ (b.queue ++ [m]).length := by
      simp only [List.length_append, List.length_cons, List.length_nil]
      omega
    rw [← List.drop_append_of_le_length h2, List.drop_drop]
    simp only [List.length_drop, List.length_append, List.length_cons, List.length_nil,
      List.append_assoc, List.singleton_append]
    congr 1
    omega

theorem asyncBuffer_get_fresh_zero_put {α : Type} (b : AsyncBuffer α) (x : α) :
    (b.put x).get_fresh 0 = Except.ok x := by
  simp [AsyncBuffer.get_fresh, AsyncBuffer.put, List.reverse_append]

/-- C7: the `AsyncBuffer` is a bounded freshest-value buffer.  For every
buffer successfully constructed with capacity `c ≥ 1` and every sequence of
puts: the count never exceeds the capacity; `get_fresh 0` after any put
returns that freshest datum; `get_all` returns the `min(c, number of puts)`
most recent items ordered freshest first; construction with `capacity < 1`
and `get_fresh` with a negative offset raise `ValueError`. -/
theorem asyncBuffer_bounded_freshest_contract (α : Type) :
    (∀ (c : Int) (b : AsyncBuffer α), AsyncBuffer.make α c = Except.ok b →
      ∀ ms : List α,
        (b.putAll ms).count ≤ b.capacity ∧
        (∀ x, ((b.putAll ms).put x).get_fresh 0 = Except.ok x) ∧
        (b.putAll ms).get_all = ms.reverse.take (min b.capacity ms.length)) ∧
    (∀ c : Int, c < 1 →
      AsyncBuffer.make α c =
        Except.error ("ValueError: Buffer capacity cannot be less than 1")) ∧
    (∀ (b : AsyncBuffer α) (offset : Int), offset < 0 →
      b.get_fresh offset =
        Except.error ("ValueError: Offset cannot be less than 0")) := by
  refine ⟨?_, ?_, ?_⟩
  · intro c b hmk ms
    rw [AsyncBuffer.make] at hmk
    split at hmk
    · exact absurd hmk (by simp)
    · rename_i hc
      simp only [Except.ok.injEq] at hmk
      subst hmk
      have hcap : 1 ≤ c.toNat := by omega
      refine ⟨?_, fun x => asyncBuffer_get_fresh_zero_put _ x, ?_⟩
      · show (AsyncBuffer.putAll _ ms).queue.length ≤ _
        have := asyncBuffer_putAll_queue_eq ms ⟨c.toNat, []⟩ hcap (by simp)
        rw [this]
        simp only [List.nil_append, List.length_drop]
        omega
      · show (AsyncBuffer.putAll _ ms).queue.reverse = _
        have := asyncBuffer_putAll_queue_eq ms ⟨c.toNat, []⟩ hcap (by simp)
        rw [this]
        simp only [List.nil_append, List.length_nil, Nat.zero_add]
        rw [List.reverse_drop]
        have harith : ms.length - (ms.length - c.toNat) = min c.toNat ms.length := by
          omega
        rw [harith]
  · intro c hc
    rw [AsyncBuffer.make, if_pos hc]
  · intro b offset hoff
    rw [AsyncBuffer.get_fresh, if_pos hoff]

/-- Witness for C7: a capacity-2 buffer fed three puts. -/
theorem asyncBuffer_bounded_freshest_contract_witness :
    ((AsyncBuffer.putAll ⟨2, []⟩ [5, 6, 7]).count ≤ (2 : Nat) ∧
      (∀ x : Nat, ((AsyncBuffer.putAll ⟨2, []⟩ [5, 6, 7]).put x).get_fresh 0 = Except.ok x) ∧
      (AsyncBuffer.putAll (⟨2, []⟩ : AsyncBuffer Nat) [5, 6, 7]).get_all =
        ([5, 6, 7] : List Nat).reverse.take (min 2 ([5, 6, 7] : List Nat).length)) ∧
    (AsyncBuffer.make Nat 0 =
      Except.error ("ValueError: Buffer capacity cannot be less than 1")) ∧
    ((⟨2, [4]⟩ : AsyncBuffer Nat).get_fresh (-1) =
      Except.error ("ValueError: Offset cannot be less than 0")) :=
  ⟨(asyncBuffer_bounded_freshest_contract Nat).1 2 ⟨2, []⟩ rfl [5, 6, 7],
   (asyncBuffer_bounded_freshest_contract Nat).2.1 0 (by omega),
   (asyncBuffer_bounded_freshest_contract Nat).2.2 ⟨2, [4]⟩ (-1) (by omega)⟩

/-! ## Claim theorems: geometry -/

theorem Vec3.ext_comp {a b : Vec3} (hx : a.x = b.x) (hy : a.y = b.y) (hz : a.z = b.z) :
    a = b := by
  cases a; cases b; simp_all

theorem Mat3.mulVec_smul (m : Mat3) (s : ℚ) (v : Vec3) :
    m.mulVec (Vec3.smul s v) = Vec3.smul s (m.mulVec v) := by
  cases m; cases v
  apply Vec3.ext_comp <;> simp [Mat3.mulVec, Vec3.smul, Vec3.dot] <;> ring

theorem idMat_mulVec (v : Vec3) :
    Mat3.mulVec ⟨⟨1, 0, 0⟩, ⟨0, 1, 0⟩, ⟨0, 0, 1⟩⟩ v = v := by
  cases v
  apply Vec3.ext_comp <;> simp [Mat3.mulVec, Vec3.dot]

theorem vec_smul_cancel (s : ℚ) (hs : s ≠ 0) (a b : Vec3) :
    a.add (Vec3.smul s (Vec3.smul (1 / s) (b.sub a))) = b := by
  apply Vec3.ext_comp <;> simp only [Vec3.add, Vec3.smul, Vec3.sub] <;> field_simp

/-- C8: unprojection reports `GeometryError.NoIntersection` (as part of the
per-call result, with no measurement produced) exactly when the ray cast
through the pixel is parallel to the support plane (vertical component
zero) or diverges from it (intersection parameter not strictly positive). -/
theorem unproject_no_intersection_iff (L : Localizer) (pose : CameraPose) (px py : ℚ) :
    L.prediction_to_coords px py pose = Except.error GeometryError.NoIntersection ↔
      ((L.pixelRay px py pose).z = 0 ∨ L.rayT px py pose ≤ 0) := by
  rw [Localizer.prediction_to_coords]
  split
  · rename_i hcond
    simpa using hcond
  · rename_i hcond
    simpa using hcond

/-- C1: for a point on the support plane, a valid camera pose (invertible
rotation, camera strictly off the support plane) and the point in front of
the camera, projecting with `coords_to_2d` and unprojecting the resulting
pixel with `prediction_to_coords` under the same pose returns a position
within `1/1000` of the original point on every coordinate (in this exact
rational model the round trip is exact). -/
theorem project_unproject_roundtrip
    (L : Localizer) (pose : CameraPose) (p : Vec3)
    (hf : 0 < L.focal_len)
    (hpose : pose.Valid)
    (hcam : pose.pos.z ≠ L.ground_alt)
    (hplane : p.z = L.ground_alt)
    (hfront : 0 < (pose.rotInv.mulVec (p.sub pose.pos)).z) :
    ∃ q : Vec3,
      L.prediction_to_coords (L.coords_to_2d p pose).1 (L.coords_to_2d p pose).2 pose =
        Except.ok q ∧
      |q.x - p.x| ≤ 1 / 1000 ∧ |q.y - p.y| ≤ 1 / 1000 ∧ |q.z - p.z| ≤ 1 / 1000 := by
  have hdz : (pose.rotInv.mulVec (p.sub pose.pos)).z ≠ 0 := ne_of_gt hfront
  have hfne : L.focal_len ≠ 0 := ne_of_gt hf
  have hdir : (⟨((L.coords_to_2d p pose).1 - L.res_x / 2) / L.focal_len,
        ((L.coords_to_2d p pose).2 - L.res_y / 2) / L.focal_len, 1⟩ : Vec3) =
      Vec3.smul (1 / (pose.rotInv.mulVec (p.sub pose.pos)).z)
        (pose.rotInv.mulVec (p.sub pose.pos)) := by
    apply Vec3.ext_comp <;>
      simp only [Localizer.coords_to_2d, Vec3.smul] <;>
      field_simp <;> ring
  have hray : L.pixelRay (L.coords_to_2d p pose).1 (L.coords_to_2d p pose).2 pose =
      Vec3.smul (1 / (pose.rotInv.mulVec (p.sub pose.pos)).z) (p.sub pose.pos) := by
    rw [Localizer.pixelRay, hdir, Mat3.mulVec_smul, hpose.1 (p.sub pose.pos)]
  have hwz : (L.pixelRay (L.coords_to_2d p pose).1 (L.coords_to_2d p pose).2 pose).z =
      (1 / (pose.rotInv.mulVec (p.sub pose.pos)).z) * (p.z - pose.pos.z) := by
    rw [hray]; simp [Vec3.smul, Vec3.sub]
  have hne2 : p.z - pose.pos.z ≠ 0 := by
    rw [hplane]; exact sub_ne_zero.mpr (Ne.symm hcam)
  have hwzne :
      (L.pixelRay (L.coords_to_2d p pose).1 (L.coords_to_2d p pose).2 pose).z ≠ 0 := by
    rw [hwz]; exact mul_ne_zero (one_div_ne_zero hdz) hne2
  have ht : L.rayT (L.coords_to_2d p pose).1 (L.coords_to_2d p pose).2 pose =
      (pose.rotInv.mulVec (p.sub pose.pos)).z := by
    rw [Localizer.rayT, hwz, ← hplane]
    field_simp
  have hcond : ¬((L.pixelRay (L.coords_to_2d p pose).1 (L.coords_to_2d p pose).2 pose).z = 0 ∨
      L.rayT (L.coords_to_2d p pose).1 (L.coords_to_2d p pose).2 pose ≤ 0) := by
    push_neg
    exact ⟨hwzne, by rw [ht]; exact hfront⟩
  refine ⟨p, ?_, by norm_num, by norm_num, by norm_num⟩
  rw [Localizer.prediction_to_coords, if_neg hcond]
  congr 1
  rw [ht, hray]
  exact vec_smul_cancel _ hdz _ _

/-- Witness for C1 at a concrete localizer, pose and on-plane point. -/
theorem project_unproject_roundtrip_witness :
    ∃ q : Vec3,
      Localizer.prediction_to_coords ⟨100, 1920, 1080, 0⟩
          ((Localizer.coords_to_2d ⟨100, 1920, 1080, 0⟩ ⟨1, 2, 0⟩
            ⟨⟨0, 0, -5⟩, ⟨⟨1, 0, 0⟩, ⟨0, 1, 0⟩, ⟨0, 0, 1⟩⟩, ⟨⟨1, 0, 0⟩, ⟨0, 1, 0⟩, ⟨0, 0, 1⟩⟩⟩).1)
          ((Localizer.coords_to_2d ⟨100, 1920, 1080, 0⟩ ⟨1, 2, 0⟩
            ⟨⟨0, 0, -5⟩, ⟨⟨1, 0, 0⟩, ⟨0, 1, 0⟩, ⟨0, 0, 1⟩⟩, ⟨⟨1, 0, 0⟩, ⟨0, 1, 0⟩, ⟨0, 0, 1⟩⟩⟩).2)
          ⟨⟨0, 0, -5⟩, ⟨⟨1, 0, 0⟩, ⟨0, 1, 0⟩, ⟨0, 0, 1⟩⟩, ⟨⟨1, 0, 0⟩, ⟨0, 1, 0⟩, ⟨0, 0, 1⟩⟩⟩ =
        Except.ok q ∧
      |q.x - (1 : ℚ)| ≤ 1 / 1000 ∧ |q.y - (2 : ℚ)| ≤ 1 / 1000 ∧ |q.z - (0 : ℚ)| ≤ 1 / 1000 :=
  project_unproject_roundtrip ⟨100, 1920, 1080, 0⟩
    ⟨⟨0, 0, -5⟩, ⟨⟨1, 0, 0⟩, ⟨0, 1, 0⟩, ⟨0, 0, 1⟩⟩, ⟨⟨1, 0, 0⟩, ⟨0, 1, 0⟩, ⟨0, 0, 1⟩⟩⟩
    ⟨1, 2, 0⟩ (by norm_num)
    ⟨fun v => by rw [idMat_mulVec, idMat_mulVec], fun v => by rw [idMat_mulVec, idMat_mulVec]⟩
    (by norm_num) rfl
    (by rw [idMat_mulVec]; norm_num [Vec3.sub])

/-! ## Claim theorems: track manager -/

theorem listMin_eq_getD_idxmin :
    ∀ l : List ℚ, l ≠ [] → l.getD (idxmin l) 0 = listMin l := by
  intro l
  induction l with
  | nil => intro h; exact absurd rfl h
  | cons v rest ih =>
    intro _
    cases rest with
    | nil => rfl
    | cons w ws =>
      by_cases hlt : listMin (w :: ws) < v
      · simp only [idxmin, if_pos hlt, listMin, List.getD_cons_succ]
        rw [ih (by simp), min_eq_right (le_of_lt hlt)]
      · simp only [idxmin, if_neg hlt, listMin, List.getD_cons_zero]
        rw [min_eq_left (not_lt.mp hlt)]

theorem listMin_le_getD :
    ∀ l : List ℚ, ∀ i, i < l.length → listMin l ≤ l.getD i 0 := by
  intro l
  induction l with
  | nil => intro i h; simp at h
  | cons v rest ih =>
    intro i hi
    cases rest with
    | nil =>
      have hi0 : i = 0 := by simpa using hi
      subst hi0
      simp [listMin]
    | cons w ws =>
      cases i with
      | zero => simp only [listMin, List.getD_cons_zero]; exact min_le_left _ _
      | succ j =>
        simp only [listMin, List.getD_cons_succ]
        exact le_trans (min_le_right _ _) (ih j (by simpa using hi))

theorem idxmin_lt_length : ∀ l : List ℚ, l ≠ [] → idxmin l < l.length := by
  intro l
  induction l with
  | nil => intro h; exact absurd rfl h
  | cons v rest ih =>
    intro _
    cases rest with
    | nil => simp [idxmin]
    | cons w ws =>
      by_cases hlt : listMin (w :: ws) < v
      · simp only [idxmin, if_pos hlt, List.length_cons]
        exact Nat.succ_lt_succ (ih (by simp))
      · simp only [idxmin, if_neg hlt, List.length_cons]
        omega

/-- C2: the Track Manager scenario — the 5 measurements at (0,0,0),
(0.1,0,0), (0,0.1,0), (10,10,0), (10.1,10,0) with gating distance 1 produce
exactly 2 tracks, the first containing exactly the 3 measurements near the
origin and the second exactly the 2 near (10,10,0) — together with the
general greedy association rule: a measurement joins the closest existing
track (first index minimizing the squared distance, which is minimal among
all live tracks) when within the gating distance, and otherwise seeds a new
track. -/
theorem tracker_scenario_and_greedy_association :
    ((TargetTracker.run 1
        [[⟨⟨0, 0, 0⟩, ⟨[], [], [], []⟩, 1⟩, ⟨⟨1/10, 0, 0⟩, ⟨[], [], [], []⟩, 2⟩,
          ⟨⟨0, 1/10, 0⟩, ⟨[], [], [], []⟩, 3⟩, ⟨⟨10, 10, 0⟩, ⟨[], [], [], []⟩, 4⟩,
          ⟨⟨101/10, 10, 0⟩, ⟨[], [], [], []⟩, 5⟩]]).tracks =
      [⟨[⟨⟨0, 0, 0⟩, ⟨[], [], [], []⟩, 1⟩, ⟨⟨1/10, 0, 0⟩, ⟨[], [], [], []⟩, 2⟩,
         ⟨⟨0, 1/10, 0⟩, ⟨[], [], [], []⟩, 3⟩]⟩,
       ⟨[⟨⟨10, 10, 0⟩, ⟨[], [], [], []⟩, 4⟩, ⟨⟨101/10, 10, 0⟩, ⟨[], [], [], []⟩, 5⟩]⟩]) ∧
    (∀ (tr : TargetTracker) (m : Measurement), tr.tracks = [] →
      (tr.update1 m).tracks = [⟨[m]⟩]) ∧
    (∀ (tr : TargetTracker) (m : Measurement), tr.tracks ≠ [] →
      listMin (tr.dists m) ≤ tr.gate ^ 2 →
      (tr.update1 m).tracks =
        modifyIdx (fun t => ⟨t.contributing ++ [m]⟩) (idxmin (tr.dists m)) tr.tracks ∧
      idxmin (tr.dists m) < tr.tracks.length ∧
      (∀ i, i < tr.tracks.length →
        (tr.dists m).getD (idxmin (tr.dists m)) 0 ≤ (tr.dists m).getD i 0)) ∧
    (∀ (tr : TargetTracker) (m : Measurement), tr.tracks ≠ [] →
      ¬ listMin (tr.dists m) ≤ tr.gate ^ 2 →
      (tr.update1 m).tracks = tr.tracks ++ [⟨[m]⟩]) := by
  refine ⟨?_, ?_, ?_, ?_⟩
  · norm_num [TargetTracker.run, TargetTracker.update, TargetTracker.update1,
      TargetTracker.dists, Track.position, listMin, idxmin, modifyIdx, Vec3.dist2,
      Vec3.smul, Vec3.add]
  · intro tr m h
    rw [TargetTracker.update1, if_pos (by simp [h])]
  · intro tr m h hgate
    have hne : ¬ tr.tracks.isEmpty = true := by simp [h]
    have hdlen : (tr.dists m).length = tr.tracks.length := by
      simp [TargetTracker.dists]
    have hdne : tr.dists m ≠ [] := by
      intro hc
      rw [hc] at hdlen
      exact h (List.length_eq_zero.mp hdlen.symm)
    refine ⟨?_, ?_, ?_⟩
    · rw [TargetTracker.update1, if_neg hne, if_pos hgate]
    · rw [← hdlen]
      exact idxmin_lt_length _ hdne
    · intro i hi
      rw [listMin_eq_getD_idxmin _ hdne]
      exact listMin_le_getD _ i (by omega)
  · intro tr m h hgate
    rw [TargetTracker.update1, if_neg (by simp [h]), if_neg hgate]

/-- Witness for C2 at a concrete one-track manager and one measurement. -/
theorem tracker_scenario_and_greedy_association_witness :
    (((⟨1, []⟩ : TargetTracker).update1 ⟨⟨0, 0, 0⟩, ⟨[], [], [], []⟩, 1⟩).tracks =
      [⟨[⟨⟨0, 0, 0⟩, ⟨[], [], [], []⟩, 1⟩]⟩]) ∧
    (((⟨1, [⟨[⟨⟨0, 0, 0⟩, ⟨[], [], [], []⟩, 1⟩]⟩]⟩ : TargetTracker).update1
        ⟨⟨1/10, 0, 0⟩, ⟨[], [], [], []⟩, 2⟩).tracks =
      modifyIdx (fun t => ⟨t.contributing ++ [⟨⟨1/10, 0, 0⟩, ⟨[], [], [], []⟩, 2⟩]⟩)
        (idxmin ((⟨1, [⟨[⟨⟨0, 0, 0⟩, ⟨[], [], [], []⟩, 1⟩]⟩]⟩ : TargetTracker).dists
          ⟨⟨1/10, 0, 0⟩, ⟨[], [], [], []⟩, 2⟩))
        [⟨[⟨⟨0, 0, 0⟩, ⟨[], [], [], []⟩, 1⟩]⟩]) ∧
    (((⟨1, [⟨[⟨⟨0, 0, 0⟩, ⟨[], [], [], []⟩, 1⟩]⟩]⟩ : TargetTracker).update1
        ⟨⟨10, 10, 0⟩, ⟨[], [], [], []⟩, 4⟩).tracks =
      [⟨[⟨⟨0, 0, 0⟩, ⟨[], [], [], []⟩, 1⟩]⟩] ++ [⟨[⟨⟨10, 10, 0⟩, ⟨[], [], [], []⟩, 4⟩]⟩]) :=
  ⟨tracker_scenario_and_greedy_association.2.1 ⟨1, []⟩ _ rfl,
   (tracker_scenario_and_greedy_association.2.2.1 _ _ (by simp)
     (by norm_num [TargetTracker.dists, Track.position, listMin, Vec3.dist2, Vec3.smul,
       Vec3.add])).1,
   tracker_scenario_and_greedy_association.2.2.2 _ _ (by simp)
     (by norm_num [TargetTracker.dists, Track.position, listMin, Vec3.dist2, Vec3.smul,
       Vec3.add])⟩

/-- C3: Track Manager determinism as a two-run property — feeding the same
ordered sequence of measurement batches to two runs starting from an empty
manager yields identical track sets: the same number of tracks, the same
contributing-measurement membership per track, and the same fused
descriptors.  The embedded manager is a pure function of its input (all
tie-breaks resolve to the first index), so the two runs coincide
definitionally. -/
theorem tracker_two_run_determinism (gate : ℚ) (batches : List (List Measurement)) :
    (TargetTracker.run gate batches).tracks.length =
        (TargetTracker.run gate batches).tracks.length ∧
      (TargetTracker.run gate batches).tracks.map Track.contributing =
        (TargetTracker.run gate batches).tracks.map Track.contributing ∧
      (TargetTracker.run gate batches).tracks.map Track.fusedDescriptor =
        (TargetTracker.run gate batches).tracks.map Track.fusedDescriptor :=
  ⟨rfl, rfl, rfl⟩
